import Mathlib

/-!
Verification of the content pipeline of the `ssg` static site generator.

The Go source is embedded shallowly:

* `internal/parser/parser.go` — `Parse`, `generateSlug`, the `Post` and
  `Frontmatter` records;
* `internal/builder/builder.go` — `parseAllPosts`, `filterDrafts`, the
  date-descending sort performed by `Build`, and `NewPost`.

Byte strings are modelled as `String`/`List Char`; this is faithful because the
delimiter `---` and all field syntax are ASCII, and an ASCII byte never occurs
inside a multi-byte UTF-8 character, so byte-level splitting in Go agrees with
character-level splitting here.  Go `time.Time` values are modelled as `Int`
timestamps (the zero value of `time.Time` is modelled as `0`; parsed dates are
encoded monotonically, so `After` becomes `<` on the model).  All definitions
use structural recursion so that concrete runs evaluate inside the kernel.

Third-party libraries called by the source (`gopkg.in/yaml.v3`,
`yuin/goldmark`) are not part of this repository; the YAML decoding of the
metadata block is modelled from the spec (see `yamlModel`), and the markdown
converter is kept as an explicit function parameter, since no claim depends on
the converted markup itself.
-/

instance {ε α : Type} [DecidableEq ε] [DecidableEq α] : DecidableEq (Except ε α) := fun x y =>
  match x, y with
  | .error a, .error b =>
    if h : a = b then .isTrue (h ▸ rfl) else .isFalse fun hh => h (Except.error.inj hh)
  | .ok a, .ok b =>
    if h : a = b then .isTrue (h ▸ rfl) else .isFalse fun hh => h (Except.ok.inj hh)
  | .error _, .ok _ => .isFalse fun hh => Except.noConfusion hh
  | .ok _, .error _ => .isFalse fun hh => Except.noConfusion hh

/-- The three-character metadata delimiter `---` of `parser.go` (`Parse` splits
on `[]byte("---")`). -/
def marker : List Char := ['-', '-', '-']

/-- Splits a character list at the first occurrence of `marker`, returning the
text before the marker and the text after it, or `none` when no occurrence
exists.  This mirrors how `bytes.SplitN` locates separator instances. -/
def splitFirst : List Char → Option (List Char × List Char)
  | [] => none
  | c :: cs =>
    if (c :: cs).take 3 = marker then some ([], cs.drop 2)
    else (splitFirst cs).map fun p => (c :: p.1, p.2)

/-- Result of `bytes.SplitN(content, []byte("---"), 3)`: at most three parts. -/
inductive Split3 where
  | one (a : List Char)
  | two (a b : List Char)
  | three (a b c : List Char)
deriving Repr, DecidableEq

/-- Function `bytes.SplitN(content, []byte("---"), 3)` from `parser.go` line 118: split
at the first two (leftmost, non-overlapping) occurrences of the marker; the
final part keeps any further markers. -/
def splitN3 (s : List Char) : Split3 :=
  match splitFirst s with
  | none => .one s
  | some (a, r₁) =>
    match splitFirst r₁ with
    | none => .two a r₁
    | some (b, r₂) => .three a b r₂

/-- Number of non-overlapping (greedy, leftmost) occurrences of the marker
`---` in a character list.  Used to state claim C3. -/
def countMarkers : List Char → Nat
  | [] => 0
  | c :: cs =>
    if (c :: cs).take 3 = marker then countMarkers ((c :: cs).drop 3) + 1
    else countMarkers cs
termination_by l => l.length
decreasing_by
  · simp only [List.drop_succ_cons, List.length_cons, List.length_drop]
    omega
  · simp only [List.length_cons]
    omega

/-- Whitespace test matching the ASCII behaviour of Go's `bytes.TrimSpace` and
`unicode.IsSpace`. -/
def isWS (c : Char) : Bool :=
  c = ' ' || c = '\t' || c = '\n' || c = '\r'

/-- Function `bytes.TrimSpace` (ASCII subset): strip leading and trailing whitespace. -/
def charTrim (l : List Char) : List Char :=
  ((l.dropWhile isWS).reverse.dropWhile isWS).reverse

/-- Split a character list on a separator character (all occurrences), the
semantics of `strings.Split` for a one-character separator. -/
def charSplit (sep : Char) : List Char → List (List Char)
  | [] => [[]]
  | c :: cs =>
    let rest := charSplit sep cs
    if c = sep then [] :: rest
    else
      match rest with
      | r :: rs => (c :: r) :: rs
      | [] => [[c]]

/-- Function `strings.Join` from the Go standard library, used by `Parse` to build the
`Keywords` field (`strings.Join(fm.Tags, ", ")`). -/
def strJoin (sep : String) : List String → String
  | [] => ""
  | [s] => s
  | s :: rest => s ++ sep ++ strJoin sep rest

/-- The YAML frontmatter record of `parser.go` lines 35–41.  Go zero values
are the field defaults: empty string, zero timestamp, nil slice, `false`. -/
structure Frontmatter where
  title : String := ""
  date : Int := 0
  description : String := ""
  tags : List String := []
  draft : Bool := false
deriving Repr, DecidableEq

/-- The parsed post record of `parser.go` lines 22–32. `Content` holds the
converted markup (Go `template.HTML`), `RawContent` the original markdown. -/
structure Post where
  Title : String
  Date : Int
  Slug : String
  Description : String
  Tags : List String
  Keywords : String
  Draft : Bool
  Content : String
  RawContent : String
deriving Repr, DecidableEq

/-- Function `filepath.Base` for slash-separated paths: the last non-empty path
component; `"."` for the empty path, `"/"` when the path is all slashes. -/
def basename (path : String) : String :=
  match ((charSplit '/' path.data).filter fun c => !c.isEmpty).getLast? with
  | some c => String.mk c
  | none => if path.data = [] then "." else "/"

/-- The expression `strings.TrimSuffix(filename, filepath.Ext(filename))` for a filename with
no slashes: drop the final dot-extension when one exists. -/
def stripExt (name : String) : String :=
  let parts := charSplit '.' name.data
  if parts.length ≤ 1 then name
  else String.mk (name.data.take (name.data.length - ((parts.getLastD []).length + 1)))

/-- Function `generateSlug` from `parser.go` lines 167–176: take the path's filename,
strip the extension, and drop the first 11 characters when the remaining name
is longer than 11 characters and has `'-'` at (0-based) indices 4, 7 and 10.
Go indexes bytes; for ASCII filenames bytes and characters coincide. -/
def generateSlug (path : String) : String :=
  let filename := basename path
  let slug := stripExt filename
  if 11 < slug.data.length ∧ slug.data.getD 4 ' ' = '-' ∧
      slug.data.getD 7 ' ' = '-' ∧ slug.data.getD 10 ' ' = '-' then
    String.mk (slug.data.drop 11)
  else slug

/-- The identifier derivation exactly as claim C1 words it: the 11-character
prefix is stripped only when the name starts with the date-shaped pattern
`NNNN-NN-NN-` with digits at every `N` position. -/
def datePatternClaim : List Char → Bool
  | y₁ :: y₂ :: y₃ :: y₄ :: '-' :: m₁ :: m₂ :: '-' :: d₁ :: d₂ :: '-' :: _ =>
    y₁.isDigit && y₂.isDigit && y₃.isDigit && y₄.isDigit &&
      m₁.isDigit && m₂.isDigit && d₁.isDigit && d₂.isDigit
  | _ => false

/-- Claim C1's identifier function (digits required in the prefix). -/
def claimIdentifier (path : String) : String :=
  let name := stripExt (basename path)
  if datePatternClaim name.data then String.mk (name.data.drop 11) else name

/-- The amended identifier derivation, following the corrected spec wording:
the prefix is stripped exactly when the extension-stripped name has at least 12
characters and hyphens at (0-based) positions 4, 7 and 10 — the digit positions
are not inspected. -/
def amendedIdentifier (path : String) : String :=
  let name := stripExt (basename path)
  if 12 ≤ name.data.length ∧ name.data[4]? = some '-' ∧
      name.data[7]? = some '-' ∧ name.data[10]? = some '-' then
    String.mk (name.data.drop 11)
  else name

/-- Function `Parse` from `parser.go` lines 116–154.  `yaml` stands for
`yaml.Unmarshal` into `Frontmatter` and `md` for the goldmark conversion, both
third-party calls; `Parse` is stated parametrically in them wherever possible.
Error strings follow the Go messages with the wrapped library error dropped. -/
def Parse (yaml : String → Option Frontmatter) (md : String → Option String)
    (content path : String) : Except String Post :=
  match splitN3 content.data with
  | .three _ fmPart bodyPart =>
    match yaml (String.mk fmPart) with
    | none => .error "parsing frontmatter"
    | some fm =>
      match md (String.mk (charTrim bodyPart)) with
      | none => .error "converting markdown"
      | some html =>
        .ok { Title := fm.title, Date := fm.date, Slug := generateSlug path,
              Description := fm.description, Tags := fm.tags,
              Keywords := strJoin ", " fm.tags, Draft := fm.draft,
              Content := html, RawContent := String.mk (charTrim bodyPart) }
  | _ => .error "invalid frontmatter format"

/-- Modelled from the spec: parsing of the fixed machine-readable timestamp
format (spec §4.1, "date (timestamp, a fixed machine-readable format)") used
by `gopkg.in/yaml.v3` when decoding the `date` field; the library itself is
not part of this repository.  An RFC 3339 UTC timestamp
`YYYY-MM-DDTHH:MM:SSZ` is encoded as the integer formed by its 14 digits in
order, which is strictly monotone in time, so comparisons agree with
`time.Time.After`. -/
def parseDate (v : List Char) : Option Int :=
  match v with
  | [y₁, y₂, y₃, y₄, '-', m₁, m₂, '-', d₁, d₂, 'T', h₁, h₂, ':', n₁, n₂, ':', s₁, s₂, 'Z'] =>
    if ([y₁, y₂, y₃, y₄, m₁, m₂, d₁, d₂, h₁, h₂, n₁, n₂, s₁, s₂].all Char.isDigit) then
      some (Int.ofNat
        ([y₁, y₂, y₃, y₄, m₁, m₂, d₁, d₂, h₁, h₂, n₁, n₂, s₁, s₂].foldl
          (fun n c => n * 10 + (c.toNat - 48)) 0))
    else none
  | _ => none

/-- Modelled from the spec: decoding of a YAML flow sequence of strings for the
`tags` field (spec §4.1, "tags (ordered sequence of strings)"); an absent value
decodes to the empty sequence (YAML null → nil slice). -/
def parseTags (v : List Char) : Option (List String) :=
  if v = "[]".data then some []
  else
    match v with
    | [] => some []
    | '[' :: rest =>
      if rest.getLast? = some ']' then
        some (((charSplit ',' rest.dropLast).map charTrim).map String.mk)
      else none
    | _ => none

/-- Modelled from the spec: decoding of the boolean `draft` field. -/
def parseBool (v : List Char) : Option Bool :=
  if v = "true".data then some true
  else if v = "false".data then some false
  else none

/-- The value of a `key: value` line: drop the key (colon included), trim. -/
def keyVal (key : List Char) (l : List Char) : List Char :=
  charTrim (l.drop key.length)

/-- Strip one pair of surrounding double quotes, if present. -/
def unquote (v : List Char) : List Char :=
  match v with
  | '"' :: rest =>
    if rest.getLast? = some '"' then rest.dropLast else v
  | _ => v

/-- Modelled from the spec: the effect of one metadata line on the decoded
record.  Recognized keys (spec §4.1) set their field; an unknown `key: value`
line is ignored (the decoder is not strict); a line that is not a key/value
pair is a decoding failure (`MalformedFrontmatter`). -/
def applyLine (fm : Frontmatter) (l : List Char) : Option Frontmatter :=
  if ("title:".data).isPrefixOf l then
    some { fm with title := String.mk (unquote (keyVal "title:".data l)) }
  else if ("date:".data).isPrefixOf l then
    (parseDate (keyVal "date:".data l)).map fun d => { fm with date := d }
  else if ("description:".data).isPrefixOf l then
    some { fm with description := String.mk (unquote (keyVal "description:".data l)) }
  else if ("tags:".data).isPrefixOf l then
    (parseTags (keyVal "tags:".data l)).map fun ts => { fm with tags := ts }
  else if ("draft:".data).isPrefixOf l then
    (parseBool (keyVal "draft:".data l)).map fun b => { fm with draft := b }
  else if l.contains ':' then some fm
  else none

/-- The non-blank trimmed lines of a metadata block. -/
def yamlLines (s : String) : List (List Char) :=
  ((charSplit '\n' s.data).map charTrim).filter fun l => l ≠ []

/-- Modelled from the spec: `yaml.Unmarshal` of `gopkg.in/yaml.v3` (not part of
this repository) decoding the metadata block into `Frontmatter` (spec §4.1),
restricted to the flat `key: value` documents this repository uses.  Fields
start at their Go zero values and are updated line by line; `none` models a
decoding error. -/
def yamlModel (s : String) : Option Frontmatter :=
  List.foldlM applyLine {} (yamlLines s)

/-- A markdown converter instance used to run the embedding on concrete
inputs: goldmark's `Convert` into a `bytes.Buffer` does not fail on the inputs
appearing below, and no claim depends on the produced markup, so the identity
conversion suffices. -/
def mdSome : String → Option String := fun s => some s

/-- One immediate entry of the content source directory, as returned by
`os.ReadDir`: its name, whether it is a subdirectory, and the bytes that
reading the named file would yield. -/
structure DirEntry where
  name : String
  isDir : Bool
  content : String
deriving Repr, DecidableEq

/-- The loop body of `parseAllPosts` (`builder.go` lines 197–209): skip
subdirectories and files without the `.md` suffix, parse each remaining file,
and abort with `parsing <path>: <err>` at the first parse failure. -/
def parsePosts (yaml : String → Option Frontmatter) (md : String → Option String)
    (dir : String) : List DirEntry → Except String (List Post)
  | [] => .ok []
  | e :: es =>
    if e.isDir || !(".md".data.isSuffixOf e.name.data) then parsePosts yaml md dir es
    else
      match Parse yaml md e.content (dir ++ "/" ++ e.name) with
      | .error err => .error ("parsing " ++ (dir ++ "/" ++ e.name) ++ ": " ++ err)
      | .ok post =>
        match parsePosts yaml md dir es with
        | .error msg => .error msg
        | .ok rest => .ok (post :: rest)

/-- Function `parseAllPosts` from `builder.go` lines 185–212.  The directory listing is
`none` when the source directory does not exist (`os.IsNotExist`), which Go
turns into an empty result without error. -/
def parseAllPosts (yaml : String → Option Frontmatter) (md : String → Option String)
    (dir : String) : Option (List DirEntry) → Except String (List Post)
  | none => .ok []
  | some entries => parsePosts yaml md dir entries

/-- Function `filterDrafts` from `builder.go` lines 215–223: keep the posts whose
`Draft` field is false, preserving order. -/
def filterDrafts (posts : List Post) : List Post :=
  posts.filter fun p => !p.Draft

/-- The sort performed by `Build` (`builder.go` lines 48–50):
`sort.Slice(publishedPosts, less i j := posts[i].Date.After(posts[j].Date))`,
i.e. a permutation that is non-increasing in `Date`.  Go's `sort.Slice` is an
unstable introsort whose tie order the spec leaves implementation-defined
(§3); insertion sort produces a sorted permutation of the same list and so
realises the same contract. -/
def sortByDateDesc (posts : List Post) : List Post :=
  List.insertionSort (fun a b => b.Date ≤ a.Date) posts

/-- The corpus-assembly portion of `Build` (`builder.go` lines 39–50), named
`assemble` in spec §4.2: parse every qualifying file, drop drafts, sort by
date descending. -/
def assemble (yaml : String → Option Frontmatter) (md : String → Option String)
    (dir : String) (listing : Option (List DirEntry)) : Except String (List Post) :=
  match parseAllPosts yaml md dir listing with
  | .error e => .error e
  | .ok posts => .ok (sortByDateDesc (filterDrafts posts))

/-- The slug derivation of `NewPost` (`builder.go` lines 132–141): lowercase
(`strings.ToLower`, modelled on its ASCII behaviour), spaces to hyphens
(`strings.ReplaceAll " " "-"`, a per-character map for a one-character
pattern), then keep only `[a-z0-9-]`. -/
def slugify (title : String) : String :=
  String.mk
    (((title.data.map Char.toLower).map fun c => if c = ' ' then '-' else c).filter
      fun r => decide (('a' ≤ r ∧ r ≤ 'z') ∨ ('0' ≤ r ∧ r ≤ '9') ∨ r = '-'))

/-- The single file written by `NewPost` via one `os.WriteFile` call. -/
structure NewPostFile where
  dir : String
  filename : String
  contents : String
deriving Repr, DecidableEq

/-- The constant tail of the `NewPost` skeleton template, `builder.go`
lines 149–158. -/
def postTemplateTail : String :=
  "\ndescription: \"\"\ntags: []\ndraft: true\n---\n\nWrite your post here...\n"

/-- Function `NewPost` from `builder.go` lines 130–167, as a pure function of the title
and the two formatted clock readings it interpolates: `today` is
`time.Now().Format("2006-01-02")` and `nowRFC` is
`time.Now().Format(time.RFC3339)`.  It produces exactly one file record,
matching the single `os.WriteFile` in the source. -/
def NewPost (title today nowRFC : String) : NewPostFile :=
  { dir := "content/posts",
    filename := today ++ "-" ++ slugify title ++ ".md",
    contents := "---\ntitle: " ++ title ++ "\ndate: " ++ nowRFC ++ postTemplateTail }

instance : IsTotal Post fun a b => b.Date ≤ a.Date :=
  ⟨fun a b => le_total b.Date a.Date⟩

instance : IsTrans Post fun a b => b.Date ≤ a.Date :=
  ⟨fun _ _ _ h₁ h₂ => le_trans h₂ h₁⟩

/-- A published post file, used to run the assembly theorems concretely. -/
def entryPub : DirEntry :=
  { name := "2024-01-15-pub.md", isDir := false,
    content := "---\ntitle: Pub\ndate: 2024-01-15T10:00:00Z\n---\nPub body" }

/-- A draft post file. -/
def entryDraft : DirEntry :=
  { name := "2024-01-16-dr.md", isDir := false,
    content := "---\ntitle: Dr\ndate: 2024-01-16T10:00:00Z\ndraft: true\n---\nDraft body" }

/-- An older dated post file. -/
def entryOld : DirEntry :=
  { name := "2023-03-03-old.md", isDir := false,
    content := "---\ndate: 2023-03-03T08:00:00Z\n---\nOld" }

/-- A newer dated post file. -/
def entryNew : DirEntry :=
  { name := "2024-02-02-new.md", isDir := false,
    content := "---\ndate: 2024-02-02T09:00:00Z\n---\nNew" }

/-- A file with no metadata delimiters at all, hence unparsable. -/
def entryBad : DirEntry :=
  { name := "2024-01-17-bad.md", isDir := false,
    content := "no frontmatter at all" }

/-- The parse of `entryPub`. -/
def postPub : Post :=
  { Title := "Pub", Date := 20240115100000, Slug := "pub", Description := "",
    Tags := [], Keywords := "", Draft := false, Content := "Pub body",
    RawContent := "Pub body" }

/-- The parse of `entryDraft`. -/
def postDraft : Post :=
  { Title := "Dr", Date := 20240116100000, Slug := "dr", Description := "",
    Tags := [], Keywords := "", Draft := true, Content := "Draft body",
    RawContent := "Draft body" }

/-- The parse of `entryOld`. -/
def postOld : Post :=
  { Title := "", Date := 20230303080000, Slug := "old", Description := "",
    Tags := [], Keywords := "", Draft := false, Content := "Old",
    RawContent := "Old" }

/-- The parse of `entryNew`. -/
def postNew : Post :=
  { Title := "", Date := 20240202090000, Slug := "new", Description := "",
    Tags := [], Keywords := "", Draft := false, Content := "New",
    RawContent := "New" }

/-- The parse of a tagged document, used for the keywords theorem. -/
def postTagged : Post :=
  { Title := "", Date := 0, Slug := "t", Description := "",
    Tags := ["alpha", "beta"], Keywords := "alpha, beta", Draft := false,
    Content := "T", RawContent := "T" }

theorem getD_hyphen_iff : ∀ (l : List Char) (i : Nat), i < l.length →
    (l.getD i ' ' = '-' ↔ l[i]? = some '-')
  | [], i, h => by simp at h
  | a :: l, 0, _ => by simp [List.getD]
  | a :: l, i + 1, h => by
    simpa [List.getD_cons_succ, List.getElem?_cons_succ] using
      getD_hyphen_iff l i (by simpa using h)

theorem slugGuard_iff (l : List Char) :
    (11 < l.length ∧ l.getD 4 ' ' = '-' ∧ l.getD 7 ' ' = '-' ∧ l.getD 10 ' ' = '-') ↔
    (12 ≤ l.length ∧ l[4]? = some '-' ∧ l[7]? = some '-' ∧ l[10]? = some '-') := by
  constructor
  · rintro ⟨hl, h4, h7, h10⟩
    exact ⟨hl, (getD_hyphen_iff l 4 (by omega)).mp h4,
      (getD_hyphen_iff l 7 (by omega)).mp h7, (getD_hyphen_iff l 10 (by omega)).mp h10⟩
  · rintro ⟨hl, h4, h7, h10⟩
    exact ⟨hl, (getD_hyphen_iff l 4 (by omega)).mpr h4,
      (getD_hyphen_iff l 7 (by omega)).mpr h7, (getD_hyphen_iff l 10 (by omega)).mpr h10⟩

/-- C1 (counterexample): `generateSlug` strips the 11-character prefix of
`abcd-ef-gh-klmno.md` even though the prefix has letters, not digits, at the
`N` positions of `NNNN-NN-NN-`, so the identifier differs from what the claim
(formalised as `claimIdentifier`) prescribes for this path. -/
theorem c1_counterexample :
    generateSlug "abcd-ef-gh-klmno.md" = "klmno" ∧
    claimIdentifier "abcd-ef-gh-klmno.md" = "abcd-ef-gh-klmno" ∧
    generateSlug "abcd-ef-gh-klmno.md" ≠ claimIdentifier "abcd-ef-gh-klmno.md" := by
  decide

/-- C1 (amended): the identifier is the path's filename with the extension
stripped, and the leading 11 characters are stripped exactly when the
remaining name has at least 12 characters and hyphens at (0-based) positions
4, 7 and 10 — the digit positions of the date pattern are not checked.  The
claim's two concrete examples hold. -/
theorem c1_generateSlug_amended :
    (∀ path, generateSlug path = amendedIdentifier path) ∧
    generateSlug "content/posts/2024-01-15-my-first-post.md" = "my-first-post" ∧
    generateSlug "no-date-prefix.md" = "no-date-prefix" := by
  refine ⟨fun path => ?_, by decide, by decide⟩
  simp only [generateSlug, amendedIdentifier]
  exact if_congr (slugGuard_iff _) rfl rfl

/-- C2 (counterexample): `Parse` accepts an input whose text before the first
marker is the non-whitespace `junk` (and whose first marker does not start a
line): the input splits exactly there and parsing succeeds. -/
theorem c2_counterexample :
    splitN3 "junk---\ntitle: Hi\n---\nbody".data =
      .three "junk".data "\ntitle: Hi\n".data "\nbody".data ∧
    charTrim "junk".data ≠ [] ∧
    Parse yamlModel mdSome "junk---\ntitle: Hi\n---\nbody" "p.md" =
      .ok { Title := "Hi", Date := 0, Slug := "p", Description := "", Tags := [],
            Keywords := "", Draft := false, Content := "body", RawContent := "body" } := by
  decide

/-- C2 (amended): the metadata block and markup body are the text between and
after the first two (leftmost, non-overlapping) occurrences of `---` anywhere
in the input; the text before the first occurrence is discarded
unconditionally — it is never inspected, so the parse result is independent of
it.  Formally: two inputs whose splits agree on the second and third part
parse identically, whatever their first parts are. -/
theorem c2_parse_ignores_preamble (yaml : String → Option Frontmatter)
    (md : String → Option String) (path c₁ c₂ : String) (a₁ a₂ b body : List Char)
    (h₁ : splitN3 c₁.data = .three a₁ b body)
    (h₂ : splitN3 c₂.data = .three a₂ b body) :
    Parse yaml md c₁ path = Parse yaml md c₂ path := by
  unfold Parse
  rw [h₁, h₂]

theorem c2_parse_ignores_preamble_witness :
    Parse yamlModel mdSome "A--- ---x" "p.md" = Parse yamlModel mdSome "ZZ--- ---x" "p.md" :=
  c2_parse_ignores_preamble yamlModel mdSome "p.md" "A--- ---x" "ZZ--- ---x"
    "A".data "ZZ".data " ".data "x".data (by decide) (by decide)

theorem countMarkers_nil : countMarkers [] = 0 := by
  simp [countMarkers]

theorem countMarkers_cons (c : Char) (cs : List Char) :
    countMarkers (c :: cs) =
      if (c :: cs).take 3 = marker then countMarkers ((c :: cs).drop 3) + 1
      else countMarkers cs := by
  rw [countMarkers]

theorem splitFirst_none_countMarkers : ∀ l, splitFirst l = none → countMarkers l = 0
  | [], _ => countMarkers_nil
  | c :: cs, h => by
    unfold splitFirst at h
    rw [countMarkers_cons]
    by_cases hm : (c :: cs).take 3 = marker
    · rw [if_pos hm] at h
      exact Option.noConfusion h
    · rw [if_neg hm] at h
      rw [if_neg hm]
      rcases hs : splitFirst cs with _ | p
      · exact splitFirst_none_countMarkers cs hs
      · rw [hs] at h
        exact Option.noConfusion h

theorem splitFirst_some_countMarkers : ∀ l a r, splitFirst l = some (a, r) →
    countMarkers l = countMarkers r + 1
  | [], a, r, h => by exact Option.noConfusion h
  | c :: cs, a, r, h => by
    unfold splitFirst at h
    rw [countMarkers_cons]
    by_cases hm : (c :: cs).take 3 = marker
    · rw [if_pos hm] at h
      rw [if_pos hm]
      have hr : r = cs.drop 2 := congrArg Prod.snd (Option.some.inj h).symm
      rw [hr, List.drop_succ_cons]
    · rw [if_neg hm] at h
      rw [if_neg hm]
      rcases hs : splitFirst cs with _ | p
      · rw [hs] at h
        exact Option.noConfusion h
      · rw [hs] at h
        have hr : r = p.2 := congrArg Prod.snd (Option.some.inj h).symm
        rw [hr]
        exact splitFirst_some_countMarkers cs p.1 p.2 (by rw [hs])

theorem splitN3_three_inv (l a b c : List Char) (h : splitN3 l = .three a b c) :
    ∃ r₁, splitFirst l = some (a, r₁) ∧ splitFirst r₁ = some (b, c) := by
  unfold splitN3 at h
  split at h
  · exact Split3.noConfusion h
  · split at h
    · exact Split3.noConfusion h
    · rename_i x₁ a₁ r₁ heq₁ x₂ b₂ r₂ heq₂
      injection h with e₁ e₂ e₃
      subst e₁
      subst e₂
      subst e₃
      exact ⟨r₁, heq₁, heq₂⟩

/-- C3 (confirmed): whenever the input contains fewer than two occurrences of
the three-character marker `---`, `Parse` fails with the `MalformedDocument`
error (`invalid frontmatter format`), for every frontmatter decoder and
markdown converter — no `Post` is produced. -/
theorem c3_too_few_markers (yaml : String → Option Frontmatter)
    (md : String → Option String) (content path : String)
    (h : countMarkers content.data < 2) :
    Parse yaml md content path = .error "invalid frontmatter format" := by
  have h3 : ∀ a b c, splitN3 content.data ≠ .three a b c := by
    intro a b c hc
    obtain ⟨r₁, h₁, h₂⟩ := splitN3_three_inv _ _ _ _ hc
    have e₁ := splitFirst_some_countMarkers _ _ _ h₁
    have e₂ := splitFirst_some_countMarkers _ _ _ h₂
    omega
  unfold Parse
  rcases hs : splitN3 content.data with a | ⟨a, b⟩ | ⟨a, b, c⟩
  · rfl
  · rfl
  · exact absurd hs (h3 a b c)

theorem c3_witness :
    countMarkers "hello world".data < 2 ∧
    Parse yamlModel mdSome "hello world" "p.md" = .error "invalid frontmatter format" := by
  have h0 : countMarkers "hello world".data = 0 :=
    splitFirst_none_countMarkers _ (by decide)
  exact ⟨by omega, c3_too_few_markers yamlModel mdSome "hello world" "p.md" (by omega)⟩

/-- C4 (confirmed): when every qualifying file of the directory parses
successfully (`parseAllPosts` returns `posts`), `assemble` succeeds and
returns exactly the parsed documents whose `Draft` flag is false: the result
is a permutation of `filterDrafts posts`, its length is the number of
non-draft documents among the `posts` (so `N` non-draft plus `M` draft
documents yield exactly `N`), and no returned document is a draft. -/
theorem c4_assemble_drops_drafts (yaml : String → Option Frontmatter)
    (md : String → Option String) (dir : String) (listing : Option (List DirEntry))
    (posts : List Post)
    (h : parseAllPosts yaml md dir listing = .ok posts) :
    ∃ result, assemble yaml md dir listing = .ok result ∧
      result.length = posts.countP (fun p => !p.Draft) ∧
      result.Perm (filterDrafts posts) ∧
      ∀ p ∈ result, p.Draft = false := by
  refine ⟨sortByDateDesc (filterDrafts posts), ?_, ?_, ?_, ?_⟩
  · unfold assemble
    rw [h]
  · unfold sortByDateDesc
    rw [(List.perm_insertionSort _ _).length_eq]
    unfold filterDrafts
    exact (List.countP_eq_length_filter _ _).symm
  · exact List.perm_insertionSort _ _
  · intro p hp
    have hp' : p ∈ List.insertionSort (fun a b => b.Date ≤ a.Date) (filterDrafts posts) := hp
    have hmem : p ∈ filterDrafts posts := (List.perm_insertionSort _ _).mem_iff.mp hp'
    have hq := List.of_mem_filter hmem
    simpa using hq

theorem c4_witness :
    ∃ result,
      assemble yamlModel mdSome "content/posts" (some [entryPub, entryDraft]) = .ok result ∧
      result.length = [postPub, postDraft].countP (fun p => !p.Draft) ∧
      result.Perm (filterDrafts [postPub, postDraft]) ∧
      ∀ p ∈ result, p.Draft = false :=
  c4_assemble_drops_drafts yamlModel mdSome "content/posts" (some [entryPub, entryDraft])
    [postPub, postDraft] (by decide)

/-- C5 (confirmed): every successful `assemble` output is ordered by publish
date descending — any two adjacent documents `a, b` in the result satisfy
`b.Date ≤ a.Date`. -/
theorem c5_assemble_sorted (yaml : String → Option Frontmatter)
    (md : String → Option String) (dir : String) (listing : Option (List DirEntry))
    (result : List Post)
    (h : assemble yaml md dir listing = .ok result) :
    result.Chain' fun a b => b.Date ≤ a.Date := by
  unfold assemble at h
  rcases hp : parseAllPosts yaml md dir listing with msg | posts
  · rw [hp] at h
    exact Except.noConfusion h
  · rw [hp] at h
    have hr : sortByDateDesc (filterDrafts posts) = result := Except.ok.inj h
    rw [← hr]
    exact List.Pairwise.chain' (List.sorted_insertionSort _ _)

theorem c5_witness : List.Chain' (fun a b => b.Date ≤ a.Date) [postNew, postOld] :=
  c5_assemble_sorted yamlModel mdSome "content/posts" (some [entryOld, entryNew])
    [postNew, postOld] (by decide)

theorem parsePosts_cons_skip (yaml : String → Option Frontmatter)
    (md : String → Option String) (dir : String) (e₀ : DirEntry) (es : List DirEntry)
    (h : (e₀.isDir || !(".md".data.isSuffixOf e₀.name.data)) = true) :
    parsePosts yaml md dir (e₀ :: es) = parsePosts yaml md dir es := by
  simp only [parsePosts]
  rw [if_pos h]

theorem parsePosts_cons_error (yaml : String → Option Frontmatter)
    (md : String → Option String) (dir : String) (e₀ : DirEntry) (es : List DirEntry)
    (msg : String) (hd : e₀.isDir = false)
    (hs : (".md".data.isSuffixOf e₀.name.data) = true)
    (hp : Parse yaml md e₀.content (dir ++ "/" ++ e₀.name) = .error msg) :
    parsePosts yaml md dir (e₀ :: es) =
      .error ("parsing " ++ (dir ++ "/" ++ e₀.name) ++ ": " ++ msg) := by
  simp only [parsePosts]
  rw [if_neg (by simp [hd, hs]), hp]

theorem parsePosts_cons_ok_error (yaml : String → Option Frontmatter)
    (md : String → Option String) (dir : String) (e₀ : DirEntry) (es : List DirEntry)
    (post₀ : Post) (msg : String) (hd : e₀.isDir = false)
    (hs : (".md".data.isSuffixOf e₀.name.data) = true)
    (hp : Parse yaml md e₀.content (dir ++ "/" ++ e₀.name) = .ok post₀)
    (hrest : parsePosts yaml md dir es = .error msg) :
    parsePosts yaml md dir (e₀ :: es) = .error msg := by
  simp only [parsePosts]
  rw [if_neg (by simp [hd, hs]), hp, hrest]

theorem parsePosts_error_of_failure (yaml : String → Option Frontmatter)
    (md : String → Option String) (dir : String) :
    ∀ entries : List DirEntry,
      (∃ e, e ∈ entries ∧ e.isDir = false ∧ (".md".data.isSuffixOf e.name.data) = true ∧
        ∃ m, Parse yaml md e.content (dir ++ "/" ++ e.name) = .error m) →
      ∃ e msg, e ∈ entries ∧ e.isDir = false ∧ (".md".data.isSuffixOf e.name.data) = true ∧
        Parse yaml md e.content (dir ++ "/" ++ e.name) = .error msg ∧
        parsePosts yaml md dir entries =
          .error ("parsing " ++ (dir ++ "/" ++ e.name) ++ ": " ++ msg)
  | [], ⟨e, he, _⟩ => absurd he (List.not_mem_nil e)
  | e₀ :: es, ⟨e, he, hdir, hsuf, m, hm⟩ => by
    by_cases hq : e₀.isDir = false ∧ (".md".data.isSuffixOf e₀.name.data) = true
    · rcases hp : Parse yaml md e₀.content (dir ++ "/" ++ e₀.name) with msg₀ | post₀
      · exact ⟨e₀, msg₀, List.mem_cons_self _ _, hq.1, hq.2, hp,
          parsePosts_cons_error yaml md dir e₀ es msg₀ hq.1 hq.2 hp⟩
      · have hne : e ≠ e₀ := by
          rintro rfl
          rw [hm] at hp
          exact Except.noConfusion hp
        have he' : e ∈ es := by
          rcases List.mem_cons.mp he with h | h
          · exact absurd h hne
          · exact h
        obtain ⟨e', msg, h1, h2, h3, h4, h5⟩ :=
          parsePosts_error_of_failure yaml md dir es ⟨e, he', hdir, hsuf, m, hm⟩
        exact ⟨e', msg, List.mem_cons_of_mem _ h1, h2, h3, h4,
          parsePosts_cons_ok_error yaml md dir e₀ es post₀ _ hq.1 hq.2 hp h5⟩
    · have hskip : (e₀.isDir || !(".md".data.isSuffixOf e₀.name.data)) = true := by
        cases hb : e₀.isDir with
        | true => simp [hb]
        | false =>
          cases hc : ".md".data.isSuffixOf e₀.name.data with
          | true => exact absurd ⟨hb, hc⟩ hq
          | false => simp [hb, hc]
      have hne : e ≠ e₀ := by
        rintro rfl
        exact hq ⟨hdir, hsuf⟩
      have he' : e ∈ es := by
        rcases List.mem_cons.mp he with h | h
        · exact absurd h hne
        · exact h
      obtain ⟨e', msg, h1, h2, h3, h4, h5⟩ :=
        parsePosts_error_of_failure yaml md dir es ⟨e, he', hdir, hsuf, m, hm⟩
      refine ⟨e', msg, List.mem_cons_of_mem _ h1, h2, h3, h4, ?_⟩
      rw [parsePosts_cons_skip yaml md dir e₀ es hskip]
      exact h5

/-- C6 (confirmed): if any qualifying file (not a directory, `.md` suffix) of
the listed source directory fails to parse, `assemble` fails as a whole with
an error naming a failing file's path (the first one the loop reaches), and
returns no documents at all. -/
theorem c6_parse_failure_aborts (yaml : String → Option Frontmatter)
    (md : String → Option String) (dir : String) (entries : List DirEntry)
    (hfail : ∃ e, e ∈ entries ∧ e.isDir = false ∧
      (".md".data.isSuffixOf e.name.data) = true ∧
      ∃ m, Parse yaml md e.content (dir ++ "/" ++ e.name) = .error m) :
    ∃ e msg, e ∈ entries ∧ e.isDir = false ∧ (".md".data.isSuffixOf e.name.data) = true ∧
      Parse yaml md e.content (dir ++ "/" ++ e.name) = .error msg ∧
      assemble yaml md dir (some entries) =
        .error ("parsing " ++ (dir ++ "/" ++ e.name) ++ ": " ++ msg) ∧
      ∀ res, assemble yaml md dir (some entries) ≠ .ok res := by
  obtain ⟨e, msg, h1, h2, h3, h4, h5⟩ := parsePosts_error_of_failure yaml md dir entries hfail
  refine ⟨e, msg, h1, h2, h3, h4, ?_, ?_⟩
  · simp only [assemble, parseAllPosts]
    rw [h5]
  · intro res hres
    simp only [assemble, parseAllPosts] at hres
    rw [h5] at hres
    exact Except.noConfusion hres

theorem c6_witness :
    ∃ e msg, e ∈ [entryPub, entryBad] ∧ e.isDir = false ∧
      (".md".data.isSuffixOf e.name.data) = true ∧
      Parse yamlModel mdSome e.content ("content/posts" ++ "/" ++ e.name) = .error msg ∧
      assemble yamlModel mdSome "content/posts" (some [entryPub, entryBad]) =
        .error ("parsing " ++ ("content/posts" ++ "/" ++ e.name) ++ ": " ++ msg) ∧
      ∀ res, assemble yamlModel mdSome "content/posts" (some [entryPub, entryBad]) ≠ .ok res :=
  c6_parse_failure_aborts yamlModel mdSome "content/posts" [entryPub, entryBad]
    ⟨entryBad, by decide, rfl, by decide, "invalid frontmatter format", by decide⟩

/-- C7 (confirmed): assembling from a nonexistent source directory (the
`os.IsNotExist` branch of `parseAllPosts`) yields the empty corpus and no
error, for every decoder and converter. -/
theorem c7_missing_dir_empty (yaml : String → Option Frontmatter)
    (md : String → Option String) (dir : String) :
    assemble yaml md dir none = .ok [] := rfl

theorem applyLine_fields {fm fm' : Frontmatter} {l : List Char}
    (h : applyLine fm l = some fm') :
    (("title:".data.isPrefixOf l) = false → fm'.title = fm.title) ∧
    (("date:".data.isPrefixOf l) = false → fm'.date = fm.date) ∧
    (("description:".data.isPrefixOf l) = false → fm'.description = fm.description) ∧
    (("tags:".data.isPrefixOf l) = false → fm'.tags = fm.tags) ∧
    (("draft:".data.isPrefixOf l) = false → fm'.draft = fm.draft) := by
  unfold applyLine at h
  cases hc₁ : "title:".data.isPrefixOf l with
  | true =>
    rw [hc₁, if_pos rfl] at h
    have e := Option.some.inj h
    subst e
    exact ⟨fun hc => Bool.noConfusion hc,
      fun _ => rfl, fun _ => rfl, fun _ => rfl, fun _ => rfl⟩
  | false =>
    rw [hc₁, if_neg Bool.false_ne_true] at h
    cases hc₂ : "date:".data.isPrefixOf l with
    | true =>
      rw [hc₂, if_pos rfl] at h
      rcases hd : parseDate (keyVal "date:".data l) with _ | d
      · rw [hd] at h
        exact Option.noConfusion h
      · rw [hd] at h
        have e := Option.some.inj h
        subst e
        exact ⟨fun _ => rfl, fun hc => Bool.noConfusion hc,
          fun _ => rfl, fun _ => rfl, fun _ => rfl⟩
    | false =>
      rw [hc₂, if_neg Bool.false_ne_true] at h
      cases hc₃ : "description:".data.isPrefixOf l with
      | true =>
        rw [hc₃, if_pos rfl] at h
        have e := Option.some.inj h
        subst e
        exact ⟨fun _ => rfl, fun _ => rfl,
          fun hc => Bool.noConfusion hc,
          fun _ => rfl, fun _ => rfl⟩
      | false =>
        rw [hc₃, if_neg Bool.false_ne_true] at h
        cases hc₄ : "tags:".data.isPrefixOf l with
        | true =>
          rw [hc₄, if_pos rfl] at h
          rcases ht : parseTags (keyVal "tags:".data l) with _ | ts
          · rw [ht] at h
            exact Option.noConfusion h
          · rw [ht] at h
            have e := Option.some.inj h
            subst e
            exact ⟨fun _ => rfl, fun _ => rfl, fun _ => rfl,
              fun hc => Bool.noConfusion hc, fun _ => rfl⟩
        | false =>
          rw [hc₄, if_neg Bool.false_ne_true] at h
          cases hc₅ : "draft:".data.isPrefixOf l with
          | true =>
            rw [hc₅, if_pos rfl] at h
            rcases hb : parseBool (keyVal "draft:".data l) with _ | b
            · rw [hb] at h
              exact Option.noConfusion h
            · rw [hb] at h
              have e := Option.some.inj h
              subst e
              exact ⟨fun _ => rfl, fun _ => rfl, fun _ => rfl, fun _ => rfl,
                fun hc => Bool.noConfusion hc⟩
          | false =>
            rw [hc₅, if_neg Bool.false_ne_true] at h
            cases hc₆ : l.contains ':' with
            | true =>
              rw [hc₆, if_pos rfl] at h
              have e := Option.some.inj h
              subst e
              exact ⟨fun _ => rfl, fun _ => rfl, fun _ => rfl, fun _ => rfl, fun _ => rfl⟩
            | false =>
              rw [hc₆, if_neg Bool.false_ne_true] at h
              exact Option.noConfusion h

theorem foldlM_fields : ∀ (ls : List (List Char)) (fm₀ fm : Frontmatter),
    List.foldlM applyLine fm₀ ls = some fm →
    ((∀ l ∈ ls, ("title:".data.isPrefixOf l) = false) → fm.title = fm₀.title) ∧
    ((∀ l ∈ ls, ("date:".data.isPrefixOf l) = false) → fm.date = fm₀.date) ∧
    ((∀ l ∈ ls, ("description:".data.isPrefixOf l) = false) →
      fm.description = fm₀.description) ∧
    ((∀ l ∈ ls, ("tags:".data.isPrefixOf l) = false) → fm.tags = fm₀.tags) ∧
    ((∀ l ∈ ls, ("draft:".data.isPrefixOf l) = false) → fm.draft = fm₀.draft)
  | [], fm₀, fm, h => by
    have e := Option.some.inj h
    subst e
    exact ⟨fun _ => rfl, fun _ => rfl, fun _ => rfl, fun _ => rfl, fun _ => rfl⟩
  | l :: ls, fm₀, fm, h => by
    rw [List.foldlM_cons] at h
    rcases ha : applyLine fm₀ l with _ | fm₁
    · rw [ha] at h
      exact Option.noConfusion h
    · rw [ha] at h
      have h' : List.foldlM applyLine fm₁ ls = some fm := h
      obtain ⟨t₁, t₂, t₃, t₄, t₅⟩ := foldlM_fields ls fm₁ fm h'
      obtain ⟨s₁, s₂, s₃, s₄, s₅⟩ := applyLine_fields ha
      refine ⟨?_, ?_, ?_, ?_, ?_⟩
      · intro hall
        rw [t₁ fun x hx => hall x (List.mem_cons_of_mem _ hx),
          s₁ (hall l (List.mem_cons_self _ _))]
      · intro hall
        rw [t₂ fun x hx => hall x (List.mem_cons_of_mem _ hx),
          s₂ (hall l (List.mem_cons_self _ _))]
      · intro hall
        rw [t₃ fun x hx => hall x (List.mem_cons_of_mem _ hx),
          s₃ (hall l (List.mem_cons_self _ _))]
      · intro hall
        rw [t₄ fun x hx => hall x (List.mem_cons_of_mem _ hx),
          s₄ (hall l (List.mem_cons_self _ _))]
      · intro hall
        rw [t₅ fun x hx => hall x (List.mem_cons_of_mem _ hx),
          s₅ (hall l (List.mem_cons_self _ _))]

/-- C8 (confirmed, with the metadata decoder modelled from the spec): a
document whose metadata block decodes successfully is accepted by `Parse`
without error, and every field whose key is absent from the block keeps its
zero-value default: missing `title` yields `""`, missing `date` yields the
zero timestamp, missing `description` yields `""`, missing `tags` yields the
empty sequence, and missing `draft` yields `false`. -/
theorem c8_missing_fields_defaults (md : String → Option String)
    (content path : String) (pre block body : List Char) (fm : Frontmatter)
    (html : String)
    (hsplit : splitN3 content.data = .three pre block body)
    (hyaml : yamlModel (String.mk block) = some fm)
    (hmd : md (String.mk (charTrim body)) = some html) :
    Parse yamlModel md content path =
      .ok { Title := fm.title, Date := fm.date, Slug := generateSlug path,
            Description := fm.description, Tags := fm.tags,
            Keywords := strJoin ", " fm.tags, Draft := fm.draft,
            Content := html, RawContent := String.mk (charTrim body) } ∧
    ((∀ l ∈ yamlLines (String.mk block), ("title:".data.isPrefixOf l) = false) →
      fm.title = "") ∧
    ((∀ l ∈ yamlLines (String.mk block), ("date:".data.isPrefixOf l) = false) →
      fm.date = 0) ∧
    ((∀ l ∈ yamlLines (String.mk block), ("description:".data.isPrefixOf l) = false) →
      fm.description = "") ∧
    ((∀ l ∈ yamlLines (String.mk block), ("tags:".data.isPrefixOf l) = false) →
      fm.tags = []) ∧
    ((∀ l ∈ yamlLines (String.mk block), ("draft:".data.isPrefixOf l) = false) →
      fm.draft = false) := by
  constructor
  · simp only [Parse, hsplit, hyaml, hmd]
  · have hy : List.foldlM applyLine {} (yamlLines (String.mk block)) = some fm := hyaml
    exact foldlM_fields (yamlLines (String.mk block)) {} fm hy

theorem c8_witness :
    Parse yamlModel mdSome "---\n---\nHello" "2024-01-15-w.md" =
      .ok { Title := "", Date := 0, Slug := "w", Description := "", Tags := [],
            Keywords := "", Draft := false, Content := "Hello", RawContent := "Hello" } :=
  (c8_missing_fields_defaults mdSome "---\n---\nHello" "2024-01-15-w.md"
    [] "\n".data "\nHello".data {} "Hello" (by decide) (by decide) rfl).1

theorem strData_append (a b : String) : (a ++ b).data = a.data ++ b.data := rfl

theorem suffix_append_left {α : Type} (t rest l : List α) (h : t <:+ rest) :
    t <:+ l ++ rest :=
  h.trans (List.suffix_append l rest)

theorem strSuffix_append5 (a b c d e : String) :
    e.data <:+ (a ++ b ++ c ++ d ++ e).data := by
  simp only [strData_append, List.append_assoc]
  exact suffix_append_left _ _ _ (suffix_append_left _ _ _
    (suffix_append_left _ _ _ (List.suffix_append _ _)))

theorem strSuffix_append4 (a b c d : String) (x : List Char)
    (h : x = (b ++ c ++ d).data) : x <:+ (a ++ b ++ c ++ d).data := by
  subst h
  simp only [strData_append, List.append_assoc]
  exact List.suffix_append _ _

/-- C9 (confirmed): `NewPost` derives the slug by lowercasing the title,
mapping spaces to hyphens and deleting every character outside `[a-z0-9-]`
(so every character of the slug lies in that set); it produces exactly one
file record, whose name is the current date, a hyphen, the slug and the `.md`
extension, and whose contents contain the line `draft: true`.  In particular
the title `My Test Post` gives the slug `my-test-post` and a filename ending
in `-my-test-post.md`. -/
theorem c9_newPost (title today nowRFC : String) :
    (NewPost title today nowRFC).filename = today ++ "-" ++ slugify title ++ ".md" ∧
    (∀ r ∈ (slugify title).data,
      ('a' ≤ r ∧ r ≤ 'z') ∨ ('0' ≤ r ∧ r ≤ '9') ∨ r = '-') ∧
    postTemplateTail.data <:+ (NewPost title today nowRFC).contents.data ∧
    "draft: true".data ∈ charSplit '\n' postTemplateTail.data ∧
    slugify "My Test Post" = "my-test-post" ∧
    "-my-test-post.md".data <:+ (NewPost "My Test Post" today nowRFC).filename.data := by
  refine ⟨rfl, ?_, ?_, by decide, by decide, ?_⟩
  · intro r hr
    have hr' : r ∈ (((title.data.map Char.toLower).map fun c =>
        if c = ' ' then '-' else c).filter
        fun r => decide (('a' ≤ r ∧ r ≤ 'z') ∨ ('0' ≤ r ∧ r ≤ '9') ∨ r = '-')) := hr
    have hq := List.of_mem_filter hr'
    simpa using hq
  · exact strSuffix_append5 "---\ntitle: " title "\ndate: " nowRFC postTemplateTail
  · exact strSuffix_append4 today "-" (slugify "My Test Post") ".md"
      "-my-test-post.md".data (by decide)

/-- C10 (confirmed): every successfully parsed document carries a `Keywords`
field equal to its tags joined with the two-character separator `", "`
(`strings.Join(fm.Tags, ", ")`), and in particular the empty string when the
tag sequence is empty — a derived field the spec's data model does not list. -/
theorem c10_keywords (yaml : String → Option Frontmatter) (md : String → Option String)
    (content path : String) (post : Post)
    (h : Parse yaml md content path = .ok post) :
    post.Keywords = strJoin ", " post.Tags ∧ (post.Tags = [] → post.Keywords = "") := by
  unfold Parse at h
  split at h
  · split at h
    · exact Except.noConfusion h
    · split at h
      · exact Except.noConfusion h
      · rename_i x₁ fm heq₁ x₂ html heq₂
        have hp := Except.ok.inj h
        subst hp
        refine ⟨rfl, fun ht => ?_⟩
        have ht' : fm.tags = [] := ht
        show strJoin ", " fm.tags = ""
        rw [ht']
        rfl
  · exact Except.noConfusion h

theorem c10_witness :
    postTagged.Keywords = strJoin ", " postTagged.Tags ∧
    (postTagged.Tags = [] → postTagged.Keywords = "") :=
  c10_keywords yamlModel mdSome "---\ntags: [alpha, beta]\n---\nT" "t.md" postTagged
    (by decide)
